import Mathlib

/-!
Verification of the chess engine core (`src/chess-engine/src/lib.rs`) against
its natural-language specification.  The Rust code is shallowly embedded:
the 64-square array becomes a `List (Option Piece)`, `usize` casts of
possibly-negative `i32` values are modelled by reduction modulo `2 ^ 64`,
and functions that can panic return `Option`/`Except`.
-/

set_option maxRecDepth 10000

inductive PieceType where
  | Pawn | Knight | Bishop | Rook | Queen | King
deriving DecidableEq, Repr

inductive Color where
  | White | Black
deriving DecidableEq, Repr

structure Piece where
  piece_type : PieceType
  color : Color
deriving DecidableEq, Repr

structure Board where
  squares : List (Option Piece)
  turn : Color
deriving DecidableEq, Repr

structure Move where
  from_row : Nat
  from_col : Nat
  to_row : Nat
  to_col : Nat
deriving DecidableEq, Repr

/-- Rust's `x as usize` applied to a (possibly negative) `i32` value:
reduction modulo `2 ^ 64`.  A negative `i32` becomes a huge `usize`,
which the engine's `< 8` bounds checks then reject. -/
def toUsize (i : Int) : Nat := (i % (2 ^ 64 : Int)).toNat

def flipColor : Color → Color
  | Color.White => Color.Black
  | Color.Black => Color.White

/-! ### Position codec (`Board::from_fen`)

`from_fen` panics (modelled as `none`) on an unrecognized piece character or
on an out-of-bounds write into the 64-square array; it performs no other
validation.  Rust's Unicode `is_uppercase`/`is_whitespace` are modelled by
their ASCII restrictions, which coincide with the Rust behaviour on every
input that decodes successfully. -/

def isWsChar (ch : Char) : Bool :=
  ch = ' ' || ch = '\t' || ch = '\n' || ch = '\r' || ch = '\x0b' || ch = '\x0c'

/-- Rust `str::split_whitespace` (ASCII restriction): maximal runs of
non-whitespace characters, empty runs dropped. -/
def splitWsAux : List Char → List Char → List (List Char)
  | [], acc => if acc.isEmpty then [] else [acc.reverse]
  | ch :: rest, acc =>
    if isWsChar ch then
      if acc.isEmpty then splitWsAux rest [] else acc.reverse :: splitWsAux rest []
    else splitWsAux rest (ch :: acc)

def splitWs (cs : List Char) : List (List Char) := splitWsAux cs []

/-- Rust `str::split('/')`: keeps empty groups. -/
def splitOnSlash (cs : List Char) : List (List Char) :=
  cs.foldr
    (fun ch acc =>
      if ch = '/' then [] :: acc
      else
        match acc with
        | g :: gs => (ch :: g) :: gs
        | [] => [[ch]])
    [[]]

def isAsciiUpper (ch : Char) : Bool := 'A' ≤ ch && ch ≤ 'Z'

def toAsciiLower (ch : Char) : Char :=
  if isAsciiUpper ch then Char.ofNat (ch.toNat + 32) else ch

/-- The `match char.to_ascii_lowercase()` of `from_fen`; `none` is the
`panic!("Invalid FEN character")` arm. -/
def pieceTypeOfChar (ch : Char) : Option PieceType :=
  match toAsciiLower ch with
  | 'p' => some PieceType.Pawn
  | 'n' => some PieceType.Knight
  | 'b' => some PieceType.Bishop
  | 'r' => some PieceType.Rook
  | 'q' => some PieceType.Queen
  | 'k' => some PieceType.King
  | _ => none

/-- Inner loop of `from_fen` over one rank group: digits advance the column
counter, piece letters are written at index `r * 8 + c` (panic — `none` —
if that index is out of bounds of the 64-square array). -/
def placeRow (r : Nat) : List Char → Nat → List (Option Piece) → Option (List (Option Piece))
  | [], _, sq => some sq
  | ch :: rest, c, sq =>
    if ch.isDigit then placeRow r rest (c + (ch.toNat - 48)) sq
    else
      match pieceTypeOfChar ch with
      | none => none
      | some pt =>
        let color := if isAsciiUpper ch then Color.White else Color.Black
        if r * 8 + c < 64 then
          placeRow r rest (c + 1) (sq.set (r * 8 + c) (some ⟨pt, color⟩))
        else none

/-- Outer loop of `from_fen` over the rank groups (enumerated from `r`). -/
def placeRows : List (List Char) → Nat → List (Option Piece) → Option (List (Option Piece))
  | [], _, sq => some sq
  | row :: rest, r, sq =>
    match placeRow r row 0 sq with
    | none => none
    | some sq' => placeRows rest (r + 1) sq'

/-- An empty 64-square array. -/
def emptySquares : List (Option Piece) := List.replicate 64 none

/-- Rust's `Board::from_fen`.  Here `none` models a panic (`parts[0]` on an input with
no token, invalid piece character, or out-of-bounds square write). -/
def Board.from_fen (s : String) : Option Board :=
  match splitWs s.data with
  | [] => none
  | p0 :: restParts =>
    match placeRows (splitOnSlash p0) 0 emptySquares with
    | none => none
    | some sq =>
      let turn :=
        match restParts with
        | [] => Color.White
        | p1 :: _ => if p1 = ['w'] then Color.White else Color.Black
      some { squares := sq, turn := turn }

/-! ### Position model -/

/-- Rust's `Board::get_piece`: bounds-checked probe. -/
def Board.get_piece (b : Board) (row col : Nat) : Option Piece :=
  if row ≥ 8 || col ≥ 8 then none else b.squares.getD (row * 8 + col) none

/-- Rust's `Board::make_move`: take the piece from the from-square, drop it on the
to-square, auto-queen a pawn reaching its far rank, flip the turn. -/
def Board.make_move (b : Board) (m : Move) : Board :=
  let fromIdx := m.from_row * 8 + m.from_col
  let toIdx := m.to_row * 8 + m.to_col
  let piece := b.squares.getD fromIdx none
  let sq2 := (b.squares.set fromIdx none).set toIdx piece
  let sq3 :=
    match sq2.getD toIdx none with
    | some p =>
      if p.piece_type = PieceType.Pawn ∧
          ((p.color = Color.White ∧ m.to_row = 0) ∨ (p.color = Color.Black ∧ m.to_row = 7)) then
        sq2.set toIdx (some { p with piece_type := PieceType.Queen })
      else sq2
    | none => sq2
  { squares := sq3, turn := flipColor b.turn }

def Move.to_string (m : Move) : String :=
  toString m.from_row ++ "," ++ toString m.from_col ++ ","
    ++ toString m.to_row ++ "," ++ toString m.to_col

/-! ### Evaluator -/

def PAWN_VAL : Int := 100
def KNIGHT_VAL : Int := 320
def BISHOP_VAL : Int := 330
def ROOK_VAL : Int := 500
def QUEEN_VAL : Int := 900
def KING_VAL : Int := 20000

def pieceVal : PieceType → Int
  | PieceType.Pawn => PAWN_VAL
  | PieceType.Knight => KNIGHT_VAL
  | PieceType.Bishop => BISHOP_VAL
  | PieceType.Rook => ROOK_VAL
  | PieceType.Queen => QUEEN_VAL
  | PieceType.King => KING_VAL

/-- Rust's `evaluate`: material sum over the 64 array slots, positive for White. -/
def evaluate (b : Board) : Int :=
  (List.range 64).foldl
    (fun acc i =>
      match b.squares.getD i none with
      | some piece =>
        if piece.color = Color.White then acc + pieceVal piece.piece_type
        else acc - pieceVal piece.piece_type
      | none => acc)
    0

/-! ### Attack detector (`is_in_check`) -/

/-- The king-location scan of `is_in_check` (first matching index). -/
def findKingIdx (color : Color) : List (Option Piece) → Nat → Option Nat
  | [], _ => none
  | op :: rest, i =>
    if op = some ⟨PieceType.King, color⟩ then some i else findKingIdx color rest (i + 1)

def knightOffsets : List (Int × Int) :=
  [(-2, -1), (-2, 1), (-1, -2), (-1, 2), (1, -2), (1, 2), (2, -1), (2, 1)]

/-- The 8 ray directions of `is_in_check`, rook-like first. -/
def rayDirs : List (Int × Int) :=
  [(-1, 0), (1, 0), (0, -1), (0, 1), (-1, -1), (-1, 1), (1, -1), (1, 1)]

/-- Continuation of a ray scan beyond the first square: the first occupied
square decides (opposing queen, or rook on an orthogonal ray / bishop on a
diagonal ray); any occupied square stops the scan. -/
def raySlide (b : Board) (opp : Color) (i : Nat) (d : Int × Int) : Nat → Int → Int → Bool
  | 0, _, _ => false
  | fuel + 1, r, c =>
    if 0 ≤ r ∧ r < 8 ∧ 0 ≤ c ∧ c < 8 then
      match b.get_piece r.toNat c.toNat with
      | some p =>
        decide (p.color = opp ∧
          (p.piece_type = PieceType.Queen ∨
            (i < 4 ∧ p.piece_type = PieceType.Rook) ∨
            (4 ≤ i ∧ p.piece_type = PieceType.Bishop)))
      | none => raySlide b opp i d fuel (r + d.1) (c + d.2)
    else false

/-- First step of one ray of `is_in_check`: an adjacent opposing king also
gives check; a blocked first square ends this ray. -/
def rayCheck (b : Board) (opp : Color) (kr kc : Nat) (i : Nat) (d : Int × Int) : Bool :=
  let r : Int := (kr : Int) + d.1
  let c : Int := (kc : Int) + d.2
  if 0 ≤ r ∧ r < 8 ∧ 0 ≤ c ∧ c < 8 then
    match b.get_piece r.toNat c.toNat with
    | some p =>
      decide (p.color = opp ∧
        (p.piece_type = PieceType.King ∨ p.piece_type = PieceType.Queen ∨
          (i < 4 ∧ p.piece_type = PieceType.Rook) ∨
          (4 ≤ i ∧ p.piece_type = PieceType.Bishop)))
    | none => raySlide b opp i d 8 (r + d.1) (c + d.2)
  else false

/-- Rust's `is_in_check(board, color)`: `true` when `color`'s king is attacked, or
when `color` has no king at all. -/
def is_in_check (b : Board) (color : Color) : Bool :=
  match findKingIdx color b.squares 0 with
  | none => true
  | some kingIdx =>
    let kr := kingIdx / 8
    let kc := kingIdx % 8
    let opp := flipColor color
    let enemyDir : Int := if opp = Color.White then -1 else 1
    let pawnHit :=
      ([-1, 1] : List Int).any fun dc =>
        let r := toUsize ((kr : Int) - enemyDir)
        let c := toUsize ((kc : Int) + dc)
        if r < 8 && c < 8 then
          match b.get_piece r c with
          | some p => decide (p.color = opp ∧ p.piece_type = PieceType.Pawn)
          | none => false
        else false
    let knightHit :=
      knightOffsets.any fun d =>
        let r := toUsize ((kr : Int) + d.1)
        let c := toUsize ((kc : Int) + d.2)
        if r < 8 && c < 8 then
          match b.get_piece r c with
          | some p => decide (p.color = opp ∧ p.piece_type = PieceType.Knight)
          | none => false
        else false
    let slideHit := (rayDirs.enum).any fun id => rayCheck b opp kr kc id.1 id.2
    pawnHit || knightHit || slideHit

/-! ### Move generation -/

def kingDirs : List (Int × Int) :=
  [(-1, -1), (-1, 0), (-1, 1), (0, -1), (0, 1), (1, -1), (1, 0), (1, 1)]

def bishopDirs : List (Int × Int) := [(-1, -1), (-1, 1), (1, -1), (1, 1)]

def rookDirs : List (Int × Int) := [(-1, 0), (1, 0), (0, -1), (0, 1)]

/-- Pawn moves of `generate_moves`: single push, double push from the start
rank (only when the single push is also free), then the two diagonal
captures.  Row arithmetic uses the `usize`-cast model. -/
def pawnMoves (b : Board) (p : Piece) (r c : Nat) : List Move :=
  let dir : Int := if p.color = Color.White then -1 else 1
  let r1 := toUsize ((r : Int) + dir)
  let fwd :=
    if r1 < 8 ∧ b.get_piece r1 c = none then
      ⟨r, c, r1, c⟩ ::
        (if (p.color = Color.White ∧ r = 6) ∨ (p.color = Color.Black ∧ r = 1) then
          let r2 := toUsize ((r : Int) + dir * 2)
          if r2 < 8 ∧ b.get_piece r2 c = none then [⟨r, c, r2, c⟩] else []
        else [])
    else []
  let caps :=
    ([-1, 1] : List Int).flatMap fun dc =>
      let rCap := toUsize ((r : Int) + dir)
      let cCap := toUsize ((c : Int) + dc)
      if rCap < 8 ∧ cCap < 8 then
        match b.get_piece rCap cCap with
        | some target => if target.color ≠ p.color then [⟨r, c, rCap, cCap⟩] else []
        | none => []
      else []
  fwd ++ caps

/-- Knight/king moves: one step per offset, onto empty or opposing squares. -/
def leaperMoves (b : Board) (p : Piece) (r c : Nat) (dirs : List (Int × Int)) : List Move :=
  dirs.flatMap fun d =>
    let nr : Int := (r : Int) + d.1
    let nc : Int := (c : Int) + d.2
    if 0 ≤ nr ∧ nr < 8 ∧ 0 ≤ nc ∧ nc < 8 then
      match b.get_piece nr.toNat nc.toNat with
      | none => [⟨r, c, nr.toNat, nc.toNat⟩]
      | some target => if target.color ≠ p.color then [⟨r, c, nr.toNat, nc.toNat⟩] else []
    else []

/-- One sliding ray of `generate_moves` (fuel 8 exceeds any possible ray
length on an 8×8 board, so the walk always ends by bounds or blocking). -/
def slideGo (b : Board) (myColor : Color) (r c : Nat) (d : Int × Int) :
    Nat → Int → Int → List Move
  | 0, _, _ => []
  | fuel + 1, nr, nc =>
    if 0 ≤ nr ∧ nr < 8 ∧ 0 ≤ nc ∧ nc < 8 then
      match b.get_piece nr.toNat nc.toNat with
      | none => ⟨r, c, nr.toNat, nc.toNat⟩ :: slideGo b myColor r c d fuel (nr + d.1) (nc + d.2)
      | some target => if target.color ≠ myColor then [⟨r, c, nr.toNat, nc.toNat⟩] else []
    else []

def slideDir (b : Board) (p : Piece) (r c : Nat) (d : Int × Int) : List Move :=
  slideGo b p.color r c d 8 ((r : Int) + d.1) ((c : Int) + d.2)

def pieceMoves (b : Board) (p : Piece) (r c : Nat) : List Move :=
  match p.piece_type with
  | PieceType.Pawn => pawnMoves b p r c
  | PieceType.Knight => leaperMoves b p r c knightOffsets
  | PieceType.King => leaperMoves b p r c kingDirs
  | PieceType.Bishop => bishopDirs.flatMap (slideDir b p r c)
  | PieceType.Rook => rookDirs.flatMap (slideDir b p r c)
  | PieceType.Queen => kingDirs.flatMap (slideDir b p r c)

/-- Pseudo-legal phase of `generate_moves`: rank-major board scan over the
side to move's pieces. -/
def pseudoMoves (b : Board) : List Move :=
  (List.range 8).flatMap fun r =>
    (List.range 8).flatMap fun c =>
      match b.get_piece r c with
      | some p => if p.color = b.turn then pieceMoves b p r c else []
      | none => []

/-- Rust's `generate_moves`: pseudo-legal moves filtered by "own king not in check
after the move". -/
def generate_moves (b : Board) : List Move :=
  (pseudoMoves b).filter fun m => !is_in_check (b.make_move m) b.turn

/-! ### Search (`minimax`, `get_best_move`) -/

/-- Rust's `minimax` with alpha-beta, exactly as in the source: scores are from
White's perspective, `maximizing_player` selects the max or min loop, and
the early `break` on `beta <= alpha` (checked after updating the window) is
threaded through the fold as a "done" flag. -/
def minimax : Nat → Board → Int → Int → Bool → Int
  | 0, b, _, _, _ => evaluate b
  | d + 1, b, alpha, beta, maximizing =>
    let moves := generate_moves b
    if moves.isEmpty then
      if is_in_check b b.turn then
        if maximizing then -100000 + ((d : Int) + 1) else 100000 - ((d : Int) + 1)
      else 0
    else if maximizing then
      (moves.foldl
        (fun (st : Int × Int × Bool) m =>
          if st.2.2 then st
          else
            let ev := minimax d (b.make_move m) st.2.1 beta false
            let me := max st.1 ev
            let a := max st.2.1 ev
            (me, a, beta ≤ a))
        (-1000000, alpha, false)).1
    else
      (moves.foldl
        (fun (st : Int × Int × Bool) m =>
          if st.2.2 then st
          else
            let ev := minimax d (b.make_move m) alpha st.2.1 true
            let me := min st.1 ev
            let bt := min st.2.1 ev
            (me, bt, bt ≤ alpha))
        (1000000, beta, false)).1

/-- Rust's `depth - 1` on a `u8` under debug semantics: `none` is the
underflow panic, reachable exactly at `depth = 0`. -/
def u8Sub1 (depth : Nat) : Option Nat :=
  if depth = 0 then none else some (depth - 1)

/-- The root selection loop of `get_best_move`: iterate over all moves,
replacing the incumbent only on strict improvement (`cmp` is `>` on values
for White, `<` for Black). -/
def selectLoop (cmp : Int → Int → Bool) (f : Move → Int) :
    Move → Int → List Move → Move
  | best, _, [] => best
  | best, bv, m :: rest =>
    if cmp (f m) bv then selectLoop cmp f m (f m) rest
    else selectLoop cmp f best bv rest

/-- Body of `get_best_move` after decoding: empty move list returns the
empty string; otherwise each root move is scored by
`minimax(child, depth - 1, -1000000, 1000000, !maximizing)`, where the
`u8` subtraction `depth - 1` can panic (`Except.error ()`). -/
def get_best_moveB (b : Board) (depth : Nat) : Except Unit String :=
  let moves := generate_moves b
  match moves with
  | [] => Except.ok ""
  | m0 :: _ =>
    match u8Sub1 depth with
    | none => Except.error ()
    | some d =>
      let maximizing := b.turn = Color.White
      let f := fun m => minimax d (b.make_move m) (-1000000) 1000000 (!maximizing)
      let cmp : Int → Int → Bool :=
        if maximizing then fun v bv => bv < v else fun v bv => v < bv
      let bv0 : Int := if maximizing then -1000000 else 1000000
      Except.ok (selectLoop cmp f m0 bv0 moves).to_string

/-- Rust's `get_best_move(fen, depth)`; a decode panic also surfaces as an error. -/
def get_best_move (fen : String) (depth : Nat) : Except Unit String :=
  match Board.from_fen fen with
  | none => Except.error ()
  | some b => get_best_moveB b depth

/-! ### Spec-modelled search entry point

The console front end (`src/chess-engine/src/bin/console_chess.rs`) calls
`chess_engine::get_best_move_core(fen, depth, excluded)`, whose definition
is not part of the sources under review; the functions below follow §4.6 of
the specification. -/

/-- Modelled from the spec: `alpha_beta(position, depth, alpha, beta)` of
§4.6 (the recursive half of the missing `get_best_move_core`).  Depth 0
returns the static evaluation; no legal moves returns the checkmate
sentinel `-100000 + depth` when in check and 0 otherwise; otherwise a
negamax loop negates child values, swaps and negates the window, and
prunes on `beta ≤ alpha`. -/
def alpha_beta : Nat → Board → Int → Int → Int
  | 0, b, _, _ => evaluate b
  | d + 1, b, alpha, beta =>
    let moves := generate_moves b
    if moves.isEmpty then
      if is_in_check b b.turn then -100000 + ((d : Int) + 1) else 0
    else
      (moves.foldl
        (fun (st : Int × Int × Bool) m =>
          if st.2.2 then st
          else
            let v := max st.1 (-(alpha_beta d (b.make_move m) (-beta) (-st.2.1)))
            let a := max st.2.1 v
            (v, a, beta ≤ a))
        (-1000000, alpha, false)).1

/-- Modelled from the spec: the value assigned to one root candidate,
`-alpha_beta(child, depth - 1, -beta, -alpha)` with the full root window. -/
def rootScore (b : Board) (depth : Nat) (m : Move) : Int :=
  -(alpha_beta (depth - 1) (b.make_move m) (-1000000) 1000000)

/-- Modelled from the spec: keep the first candidate whose value strictly
exceeds the incumbent's — "first move with the maximum value found is
kept". -/
def pickBest (f : Move → Int) : Move → Int → List Move → Move
  | best, _, [] => best
  | best, bv, m :: rest =>
    if bv < f m then pickBest f m (f m) rest else pickBest f best bv rest

/-- Modelled from the spec: `best_move(Position, depth, excluded)` — the
missing `get_best_move_core`.  Root legal moves minus `excluded`; `none`
exactly when nothing remains; otherwise the first candidate with the
maximum root score. -/
def best_move (b : Board) (depth : Nat) (excluded : List Move) : Option Move :=
  match (generate_moves b).filter (fun m => decide (m ∉ excluded)) with
  | [] => none
  | m0 :: rest => some (pickBest (rootScore b depth) m0 (rootScore b depth m0) rest)

/-! ### Concrete positions used by witnesses and counterexamples -/

/-- Only the two kings, far apart, White to move. -/
def twoKingsBoard : Board :=
  { squares := (emptySquares.set 4 (some ⟨PieceType.King, Color.Black⟩)).set 60
      (some ⟨PieceType.King, Color.White⟩),
    turn := Color.White }

/-- Back-rank mate: White rook a8, Black king g8 boxed in by its own pawns
f7/g7/h7, Black to move — Black is in check and has no legal move. -/
def mateBoard : Board :=
  { squares :=
      ((((emptySquares.set 0 (some ⟨PieceType.Rook, Color.White⟩)).set 6
        (some ⟨PieceType.King, Color.Black⟩)).set 13
        (some ⟨PieceType.Pawn, Color.Black⟩)).set 14
        (some ⟨PieceType.Pawn, Color.Black⟩)).set 15
        (some ⟨PieceType.Pawn, Color.Black⟩),
    turn := Color.Black }

/-- White king a8 and a Black knight on (2,3): White's only legal moves are
king to (0,1) and king to (1,0), in that generation order. -/
def twoMovesBoard : Board :=
  { squares := (emptySquares.set 0 (some ⟨PieceType.King, Color.White⟩)).set 19
      (some ⟨PieceType.Knight, Color.Black⟩),
    turn := Color.White }

/-- A lone White rook on a8. -/
def rookBoard : Board :=
  { squares := emptySquares.set 0 (some ⟨PieceType.Rook, Color.White⟩),
    turn := Color.White }

/-- A lone Black pawn on array index 9 (row 1, column 1). -/
def pawnAt9Board : Board :=
  { squares := emptySquares.set 9 (some ⟨PieceType.Pawn, Color.Black⟩),
    turn := Color.White }

/-- The empty board, White to move. -/
def emptyBoard : Board := { squares := emptySquares, turn := Color.White }

/-! ### Claim C1: generated moves never leave the mover's king in check -/

/-- C1: for every position, every move contained in the sequence returned by
`generate_moves`, when applied to that position, yields a position in which
the king of the side that made the move is not in check according to
`is_in_check`. -/
theorem generate_moves_king_safe (b : Board) (m : Move)
    (h : m ∈ generate_moves b) :
    is_in_check (b.make_move m) b.turn = false := by
  have h2 := (List.mem_filter.mp h).2
  simpa using h2

theorem generate_moves_king_safe_witness :
    (⟨7, 4, 6, 4⟩ : Move) ∈ generate_moves twoKingsBoard ∧
      is_in_check (twoKingsBoard.make_move ⟨7, 4, 6, 4⟩) twoKingsBoard.turn = false :=
  ⟨by decide, generate_moves_king_safe twoKingsBoard ⟨7, 4, 6, 4⟩ (by decide)⟩

/-! ### Claim C9: a side with no king is reported as in check -/

lemma findKingIdx_eq_none (color : Color) :
    ∀ (l : List (Option Piece)) (i : Nat),
      (∀ op ∈ l, op ≠ some ⟨PieceType.King, color⟩) → findKingIdx color l i = none := by
  intro l
  induction l with
  | nil => intro i _; rfl
  | cons op rest ih =>
    intro i h
    have hop : op ≠ some ⟨PieceType.King, color⟩ := h op (List.mem_cons_self op rest)
    simp only [findKingIdx, if_neg hop]
    exact ih (i + 1) fun x hx => h x (List.mem_cons_of_mem op hx)

/-- C9: for every position and side, if no king of that side is present
anywhere on the board, `is_in_check` reports that side as in check (it
returns `true` rather than failing). -/
theorem is_in_check_no_king (b : Board) (color : Color)
    (h : ∀ op ∈ b.squares, op ≠ some ⟨PieceType.King, color⟩) :
    is_in_check b color = true := by
  simp only [is_in_check, findKingIdx_eq_none color b.squares 0 h]

theorem is_in_check_no_king_witness :
    (∀ op ∈ emptyBoard.squares, op ≠ some ⟨PieceType.King, Color.White⟩) ∧
      is_in_check emptyBoard Color.White = true :=
  ⟨by decide, is_in_check_no_king emptyBoard Color.White (by decide)⟩

/-! ### Claim C7: twenty legal moves from the standard starting position -/

/-- C7: decoding the standard chess starting position and running
`generate_moves` on it yields a sequence of exactly 20 legal moves. -/
theorem start_position_twenty_moves :
    (Board.from_fen "rnbqkbnr/pppppppp/8/8/8/8/PPPPPPPP/RNBQKBNR w KQkq - 0 1").map
      (fun b => (generate_moves b).length) = some 20 := by decide

/-! ### Claim C3: terminal values of `minimax` -/

/-- C3: for every position and depth > 0, if the side to move has no legal
moves then `minimax` (called with the maximizing flag the search maintains,
`turn = White`) returns the checkmate sentinel `-100000 + depth` expressed
from the side to move's perspective when that side is in check, and 0
(stalemate) otherwise. -/
theorem minimax_no_moves (d : Nat) (b : Board) (alpha beta : Int)
    (hd : 0 < d) (hmoves : generate_moves b = []) :
    (is_in_check b b.turn = true →
      (if b.turn = Color.White
        then minimax d b alpha beta (decide (b.turn = Color.White))
        else -(minimax d b alpha beta (decide (b.turn = Color.White))))
        = -100000 + (d : Int)) ∧
    (is_in_check b b.turn = false →
      minimax d b alpha beta (decide (b.turn = Color.White)) = 0) := by
  cases d with
  | zero => exact absurd hd (by omega)
  | succ e =>
    constructor
    · intro hchk
      cases hturn : b.turn with
      | White =>
        rw [hturn] at hchk
        simp [minimax, hmoves, hturn, hchk]
      | Black =>
        rw [hturn] at hchk
        simp [minimax, hmoves, hturn, hchk]
        all_goals omega
    · intro hchk
      simp [minimax, hmoves, hchk]

theorem minimax_no_moves_witness :
    (if mateBoard.turn = Color.White
      then minimax 1 mateBoard (-1000000) 1000000 (decide (mateBoard.turn = Color.White))
      else -(minimax 1 mateBoard (-1000000) 1000000 (decide (mateBoard.turn = Color.White))))
      = -100000 + (1 : Int) :=
  (minimax_no_moves 1 mateBoard (-1000000) 1000000 (by omega) (by decide)).1 (by decide)

/-! ### Claim C8: the evaluator is the signed material sum -/

/-- The spec's per-square contribution: piece value, positive for the
first mover, negative for the second mover, 0 for an empty square. -/
def pieceScore : Option Piece → Int
  | some p => if p.color = Color.White then pieceVal p.piece_type else -pieceVal p.piece_type
  | none => 0

/-- The spec's evaluator: sum of `pieceScore` over all squares. -/
def materialSum : List (Option Piece) → Int
  | [] => 0
  | op :: rest => pieceScore op + materialSum rest

lemma evaluate_eq_foldl_add (b : Board) :
    evaluate b = (List.range 64).foldl
      (fun acc i => acc + pieceScore (b.squares.getD i none)) 0 := by
  unfold evaluate
  congr 1
  funext acc i
  cases h : b.squares.getD i none with
  | none => simp [pieceScore]
  | some p =>
    by_cases hc : p.color = Color.White <;> simp [pieceScore, hc, Int.sub_eq_add_neg]

lemma foldl_pieceScore (l : List (Option Piece)) :
    ∀ acc : Int,
      (List.range l.length).foldl (fun a i => a + pieceScore (l.getD i none)) acc
        = acc + materialSum l := by
  induction l with
  | nil => intro acc; simp [materialSum]
  | cons op rest ih =>
    intro acc
    have hr : List.range (op :: rest).length
        = 0 :: (List.range rest.length).map Nat.succ := by
      simp [List.range_succ_eq_map]
    rw [hr]
    simp only [List.foldl_cons, List.foldl_map, List.getD_cons_zero, List.getD_cons_succ]
    rw [ih (acc + pieceScore op)]
    simp [materialSum, add_assoc]

/-- C8: for every position (64 squares), `evaluate` returns the sum over all
occupied squares of the fixed material value of the piece, positive for
White pieces and negative for Black pieces; and the result does not depend
on the side-to-move field. -/
theorem evaluate_material (b : Board) (hlen : b.squares.length = 64) :
    evaluate b = materialSum b.squares ∧
      ∀ c1 c2 : Color,
        evaluate { squares := b.squares, turn := c1 }
          = evaluate { squares := b.squares, turn := c2 } := by
  constructor
  · rw [evaluate_eq_foldl_add, ← hlen, foldl_pieceScore]
    simp
  · intro c1 c2
    rfl

theorem evaluate_material_witness :
    evaluate twoKingsBoard = materialSum twoKingsBoard.squares :=
  (evaluate_material twoKingsBoard (by decide)).1

/-! ### Claim C5: `best_move` returns "no move" exactly when nothing remains -/

/-- C5: for every position, depth and excluded set, the (spec-modelled)
search entry point returns no move if and only if every legal root move is
in the excluded set — i.e. the legal-move list after exclusion is empty. -/
theorem best_move_none_iff (b : Board) (depth : Nat) (excluded : List Move) :
    best_move b depth excluded = none ↔ ∀ m ∈ generate_moves b, m ∈ excluded := by
  constructor
  · intro hnone m hm
    by_contra hnot
    have hmf : m ∈ (generate_moves b).filter (fun x => decide (x ∉ excluded)) :=
      List.mem_filter.mpr ⟨hm, by simpa using hnot⟩
    unfold best_move at hnone
    cases h : (generate_moves b).filter (fun x => decide (x ∉ excluded)) with
    | nil =>
      rw [h] at hmf
      exact absurd hmf (List.not_mem_nil m)
    | cons m0 rest =>
      rw [h] at hnone
      simp at hnone
  · intro hall
    have h : (generate_moves b).filter (fun x => decide (x ∉ excluded)) = [] := by
      refine List.filter_eq_nil_iff.mpr ?_
      intro a ha
      simp only [decide_eq_true_eq, not_not]
      exact hall a ha
    unfold best_move
    rw [h]

theorem best_move_none_iff_witness :
    best_move emptyBoard 3 [] = none :=
  (best_move_none_iff emptyBoard 3 []).mpr (by decide)

/-! ### Claim C2: the root search picks the first candidate with the best score -/

lemma pickBest_first_max (f : Move → Int) :
    ∀ (l : List Move) (best : Move),
      (∀ x ∈ best :: l, f x ≤ f (pickBest f best (f best) l)) ∧
      ∃ l1 l2, best :: l = l1 ++ pickBest f best (f best) l :: l2 ∧
        ∀ y ∈ l1, f y < f (pickBest f best (f best) l) := by
  intro l
  induction l with
  | nil =>
    intro best
    refine ⟨?_, [], [], rfl, by simp⟩
    intro x hx
    have hx' : x = best := by simpa using hx
    subst hx'
    exact le_refl _
  | cons m rest ih =>
    intro best
    by_cases hlt : f best < f m
    · have hred : pickBest f best (f best) (m :: rest) = pickBest f m (f m) rest := by
        simp [pickBest, hlt]
      obtain ⟨hmax, l1, l2, hdec, hstrict⟩ := ih m
      rw [hred]
      constructor
      · intro x hx
        rcases List.mem_cons.mp hx with rfl | hx'
        · exact le_trans (le_of_lt hlt) (hmax m (List.mem_cons_self m rest))
        · exact hmax x hx'
      · refine ⟨best :: l1, l2, ?_, ?_⟩
        · rw [List.cons_append, ← hdec]
        · intro y hy
          rcases List.mem_cons.mp hy with rfl | hy'
          · exact lt_of_lt_of_le hlt (hmax m (List.mem_cons_self m rest))
          · exact hstrict y hy'
    · have hred : pickBest f best (f best) (m :: rest) = pickBest f best (f best) rest := by
        simp [pickBest, hlt]
      obtain ⟨hmax, l1, l2, hdec, hstrict⟩ := ih best
      rw [hred]
      constructor
      · intro x hx
        rcases List.mem_cons.mp hx with rfl | hx'
        · exact hmax x (List.mem_cons_self x rest)
        · rcases List.mem_cons.mp hx' with rfl | hx''
          · exact le_trans (le_of_not_lt hlt) (hmax best (List.mem_cons_self best rest))
          · exact hmax x (List.mem_cons_of_mem best hx'')
      · cases l1 with
        | nil =>
          simp only [List.nil_append] at hdec
          injection hdec with h1 h2
          refine ⟨[], m :: rest, ?_, by simp⟩
          rw [List.nil_append, ← h1]
        | cons b0 l1' =>
          rw [List.cons_append] at hdec
          injection hdec with hb0 hrest
          refine ⟨best :: m :: l1', l2, ?_, ?_⟩
          · rw [List.cons_append, List.cons_append, ← hrest]
          · intro y hy
            rcases List.mem_cons.mp hy with rfl | hy'
            · exact hstrict y (hb0 ▸ List.mem_cons_self b0 l1')
            · rcases List.mem_cons.mp hy' with rfl | hy''
              · have hb : f best < f (pickBest f best (f best) rest) :=
                  hstrict best (hb0 ▸ List.mem_cons_self b0 l1')
                exact lt_of_le_of_lt (le_of_not_lt hlt) hb
              · exact hstrict y (List.mem_cons_of_mem b0 hy'')

/-- C2: (spec-modelled root search) any returned move is a non-excluded
legal move whose root score (`-alpha_beta` of the child) is maximal among
the non-excluded legal moves, and it occurs in the candidate list at a
position before which every candidate scores strictly less — i.e. it is
the first candidate in generation order achieving the optimal value, and
later equal-scoring candidates never replace it.  In particular, with
exactly two legal moves, excluding one makes the search return the other. -/
theorem best_move_first_argmax :
    (∀ (b : Board) (depth : Nat) (excluded : List Move) (m : Move),
      best_move b depth excluded = some m →
        m ∈ (generate_moves b).filter (fun x => decide (x ∉ excluded)) ∧
          (∀ m' ∈ (generate_moves b).filter (fun x => decide (x ∉ excluded)),
            rootScore b depth m' ≤ rootScore b depth m) ∧
          ∃ l1 l2,
            (generate_moves b).filter (fun x => decide (x ∉ excluded)) = l1 ++ m :: l2 ∧
              ∀ y ∈ l1, rootScore b depth y < rootScore b depth m) ∧
    (∀ (b : Board) (depth : Nat) (m1 m2 : Move),
      generate_moves b = [m1, m2] → m1 ≠ m2 → best_move b depth [m1] = some m2) := by
  constructor
  · intro b depth excluded m hm
    unfold best_move at hm
    cases h : (generate_moves b).filter (fun x => decide (x ∉ excluded)) with
    | nil =>
      rw [h] at hm
      simp at hm
    | cons m0 rest =>
      rw [h] at hm
      simp only [Option.some.injEq] at hm
      obtain ⟨hmax, l1, l2, hdec, hstrict⟩ := pickBest_first_max (rootScore b depth) rest m0
      subst hm
      refine ⟨?_, ?_, l1, l2, hdec, hstrict⟩
      · rw [hdec]
        exact List.mem_append_right l1 (List.mem_cons_self _ _)
      · intro m' hm'
        exact hmax m' hm'
  · intro b depth m1 m2 hgen hne
    have h2 : ¬(m2 = m1) := fun hh => hne hh.symm
    have hfilt : (generate_moves b).filter (fun x => decide (x ∉ [m1])) = [m2] := by
      rw [hgen]
      simp [List.filter_cons, h2]
    unfold best_move
    rw [hfilt]
    rfl

theorem best_move_first_argmax_witness :
    best_move twoMovesBoard 1 [⟨0, 0, 0, 1⟩] = some ⟨0, 0, 1, 0⟩ :=
  best_move_first_argmax.2 twoMovesBoard 1 ⟨0, 0, 0, 1⟩ ⟨0, 0, 1, 0⟩ (by decide) (by decide)

/-! ### Claim C10: the `u8` depth subtraction at the root -/

/-- C10: the `get_best_move` entry point is total only for depth ≥ 1.  For
every position with at least one legal move, depth 0 reaches the `u8`
underflow of `depth - 1` (the error branch); when there is no legal move
the subtraction is not reached; and for every depth ≥ 1 the call returns
normally — inside `minimax` the subtraction only occurs under the
`depth ≠ 0` guard, so recursion stops at 0 and never underflows. -/
theorem get_best_move_u8_underflow :
    (∀ b : Board, generate_moves b ≠ [] → get_best_moveB b 0 = Except.error ()) ∧
    (∀ b : Board, generate_moves b = [] → get_best_moveB b 0 = Except.ok "") ∧
    (∀ (b : Board) (depth : Nat), 0 < depth →
      ∃ s : String, get_best_moveB b depth = Except.ok s) := by
  refine ⟨?_, ?_, ?_⟩
  · intro b h
    unfold get_best_moveB
    cases hg : generate_moves b with
    | nil => exact absurd hg h
    | cons m0 rest => rfl
  · intro b h
    unfold get_best_moveB
    rw [h]
  · intro b depth hd
    unfold get_best_moveB
    cases hg : generate_moves b with
    | nil => exact ⟨"", rfl⟩
    | cons m0 rest =>
      have hu : u8Sub1 depth = some (depth - 1) := by
        unfold u8Sub1
        rw [if_neg (by omega)]
      rw [hu]
      exact ⟨_, rfl⟩

theorem get_best_move_u8_underflow_witness :
    get_best_moveB twoKingsBoard 0 = Except.error () :=
  get_best_move_u8_underflow.1 twoKingsBoard (by decide)

/-! ### Claim C6: effect of `make_move` on the board -/

/-- C6 counterexample.  `make_move` does not empty the from-square when
`from = to` (the taken piece is written back), and for an off-board
from-square such as row 0, column 9 the unchecked index `0 * 8 + 9 = 9`
aliases the on-board square (1,1), which changes even though it is neither
the from- nor the to-square of the move. -/
theorem make_move_counterexample :
    (rookBoard.make_move ⟨0, 0, 0, 0⟩).get_piece 0 0
        = some ⟨PieceType.Rook, Color.White⟩ ∧
      pawnAt9Board.get_piece 1 1 = some ⟨PieceType.Pawn, Color.Black⟩ ∧
      (pawnAt9Board.make_move ⟨0, 9, 3, 3⟩).get_piece 1 1 = none := by
  decide

lemma getD_set_self {α : Type} (l : List α) (i : Nat) (x d : α) (h : i < l.length) :
    (l.set i x).getD i d = x := by
  rw [List.getD_eq_getD_get?, List.get?_set_eq_of_lt x h]
  rfl

lemma getD_set_ne {α : Type} (l : List α) {i j : Nat} (x d : α) (h : i ≠ j) :
    (l.set i x).getD j d = l.getD j d := by
  rw [List.getD_eq_getD_get?, List.get?_set_ne x l h, ← List.getD_eq_getD_get?]

lemma get_piece_lt (b : Board) {r c : Nat} (hr : r < 8) (hc : c < 8) :
    b.get_piece r c = b.squares.getD (r * 8 + c) none := by
  unfold Board.get_piece
  rw [if_neg]
  simp only [Bool.or_eq_true, decide_eq_true_eq]
  omega

lemma squareIdx_ne {r c r' c' : Nat} (_hr : r < 8) (hc : c < 8) (_hr' : r' < 8)
    (hc' : c' < 8) (hne : (r, c) ≠ (r', c')) : r * 8 + c ≠ r' * 8 + c' := by
  intro hEq
  have h1 : r = r' ∧ c = c' := by omega
  exact hne (by rw [h1.1, h1.2])

/-- C6 as amended: for every position (64 squares) and every move whose
from- and to-squares are both on the board and distinct, `make_move`
empties the from-square, places the moved piece on the to-square
(overwriting any occupant, promoting a pawn that lands on its far rank to
a queen of the same side), leaves every other square unchanged and flips
the side to move. -/
theorem make_move_spec (b : Board) (m : Move)
    (hlen : b.squares.length = 64)
    (hfr : m.from_row < 8) (hfc : m.from_col < 8)
    (htr : m.to_row < 8) (htc : m.to_col < 8)
    (hne : (m.from_row, m.from_col) ≠ (m.to_row, m.to_col)) :
    (b.make_move m).get_piece m.from_row m.from_col = none ∧
    (b.make_move m).get_piece m.to_row m.to_col =
      (match b.get_piece m.from_row m.from_col with
        | none => none
        | some pc =>
          if pc.piece_type = PieceType.Pawn ∧
              ((pc.color = Color.White ∧ m.to_row = 0) ∨
                (pc.color = Color.Black ∧ m.to_row = 7)) then
            some ⟨PieceType.Queen, pc.color⟩
          else some pc) ∧
    (∀ r c : Nat, r < 8 → c < 8 → (r, c) ≠ (m.from_row, m.from_col) →
      (r, c) ≠ (m.to_row, m.to_col) →
      (b.make_move m).get_piece r c = b.get_piece r c) ∧
    (b.make_move m).turn = flipColor b.turn := by
  obtain ⟨fr, fc, tr, tc⟩ := m
  dsimp only at hfr hfc htr htc hne ⊢
  have hfiti : fr * 8 + fc ≠ tr * 8 + tc := squareIdx_ne hfr hfc htr htc hne
  have hlen1 : (b.squares.set (fr * 8 + fc) none).length = 64 := by
    rw [List.length_set, hlen]
  have hlen2 : ((b.squares.set (fr * 8 + fc) none).set (tr * 8 + tc)
      (b.squares.getD (fr * 8 + fc) none)).length = 64 := by
    rw [List.length_set, hlen1]
  have hto : ((b.squares.set (fr * 8 + fc) none).set (tr * 8 + tc)
      (b.squares.getD (fr * 8 + fc) none)).getD (tr * 8 + tc) none
      = b.squares.getD (fr * 8 + fc) none :=
    getD_set_self _ _ _ _ (by rw [hlen1]; omega)
  have hfrom : ((b.squares.set (fr * 8 + fc) none).set (tr * 8 + tc)
      (b.squares.getD (fr * 8 + fc) none)).getD (fr * 8 + fc) none = none := by
    rw [getD_set_ne _ _ _ (Ne.symm hfiti)]
    exact getD_set_self _ _ _ _ (by rw [hlen]; omega)
  have hother : ∀ j : Nat, j ≠ fr * 8 + fc → j ≠ tr * 8 + tc →
      ((b.squares.set (fr * 8 + fc) none).set (tr * 8 + tc)
        (b.squares.getD (fr * 8 + fc) none)).getD j none = b.squares.getD j none := by
    intro j hjf hjt
    rw [getD_set_ne _ _ _ (Ne.symm hjt), getD_set_ne _ _ _ (Ne.symm hjf)]
  have hsq3 : (Board.make_move b ⟨fr, fc, tr, tc⟩).squares =
      (match ((b.squares.set (fr * 8 + fc) none).set (tr * 8 + tc)
          (b.squares.getD (fr * 8 + fc) none)).getD (tr * 8 + tc) none with
        | some pp =>
          if pp.piece_type = PieceType.Pawn ∧
              ((pp.color = Color.White ∧ tr = 0) ∨ (pp.color = Color.Black ∧ tr = 7)) then
            ((b.squares.set (fr * 8 + fc) none).set (tr * 8 + tc)
              (b.squares.getD (fr * 8 + fc) none)).set (tr * 8 + tc)
              (some { pp with piece_type := PieceType.Queen })
          else (b.squares.set (fr * 8 + fc) none).set (tr * 8 + tc)
            (b.squares.getD (fr * 8 + fc) none)
        | none => (b.squares.set (fr * 8 + fc) none).set (tr * 8 + tc)
            (b.squares.getD (fr * 8 + fc) none)) := rfl
  rw [hto] at hsq3
  cases hp : b.squares.getD (fr * 8 + fc) none with
  | none =>
    rw [hp] at hsq3 hto hfrom hother
    refine ⟨?_, ?_, ?_, rfl⟩
    · rw [get_piece_lt (Board.make_move b ⟨fr, fc, tr, tc⟩) hfr hfc]
      try dsimp only
      rw [hsq3]
      exact hfrom
    · rw [get_piece_lt (Board.make_move b ⟨fr, fc, tr, tc⟩) htr htc,
        get_piece_lt b hfr hfc, hp]
      try dsimp only
      rw [hsq3]
      exact hto
    · intro r c hr hc hrf hrt
      rw [get_piece_lt (Board.make_move b ⟨fr, fc, tr, tc⟩) hr hc, get_piece_lt b hr hc]
      try dsimp only
      rw [hsq3]
      exact hother _ (squareIdx_ne hr hc hfr hfc hrf) (squareIdx_ne hr hc htr htc hrt)
  | some pc =>
    rw [hp] at hsq3 hto hfrom hother hlen2
    have hsq3' : (Board.make_move b ⟨fr, fc, tr, tc⟩).squares =
        if pc.piece_type = PieceType.Pawn ∧
            ((pc.color = Color.White ∧ tr = 0) ∨ (pc.color = Color.Black ∧ tr = 7)) then
          ((b.squares.set (fr * 8 + fc) none).set (tr * 8 + tc) (some pc)).set
            (tr * 8 + tc) (some ⟨PieceType.Queen, pc.color⟩)
        else (b.squares.set (fr * 8 + fc) none).set (tr * 8 + tc) (some pc) := hsq3
    by_cases hq : pc.piece_type = PieceType.Pawn ∧
        ((pc.color = Color.White ∧ tr = 0) ∨ (pc.color = Color.Black ∧ tr = 7))
    · rw [if_pos hq] at hsq3'
      refine ⟨?_, ?_, ?_, rfl⟩
      · rw [get_piece_lt (Board.make_move b ⟨fr, fc, tr, tc⟩) hfr hfc]
        try dsimp only
        rw [hsq3', getD_set_ne _ _ _ (Ne.symm hfiti)]
        exact hfrom
      · rw [get_piece_lt (Board.make_move b ⟨fr, fc, tr, tc⟩) htr htc,
          get_piece_lt b hfr hfc, hp]
        try dsimp only
        rw [hsq3', getD_set_self _ _ _ _ (by rw [hlen2]; omega)]
        simp [hq]
      · intro r c hr hc hrf hrt
        rw [get_piece_lt (Board.make_move b ⟨fr, fc, tr, tc⟩) hr hc, get_piece_lt b hr hc]
        try dsimp only
        rw [hsq3', getD_set_ne _ _ _ (Ne.symm (squareIdx_ne hr hc htr htc hrt))]
        exact hother _ (squareIdx_ne hr hc hfr hfc hrf) (squareIdx_ne hr hc htr htc hrt)
    · rw [if_neg hq] at hsq3'
      refine ⟨?_, ?_, ?_, rfl⟩
      · rw [get_piece_lt (Board.make_move b ⟨fr, fc, tr, tc⟩) hfr hfc]
        try dsimp only
        rw [hsq3']
        exact hfrom
      · rw [get_piece_lt (Board.make_move b ⟨fr, fc, tr, tc⟩) htr htc,
          get_piece_lt b hfr hfc, hp]
        try dsimp only
        rw [hsq3', hto]
        simp [hq]
      · intro r c hr hc hrf hrt
        rw [get_piece_lt (Board.make_move b ⟨fr, fc, tr, tc⟩) hr hc, get_piece_lt b hr hc]
        try dsimp only
        rw [hsq3']
        exact hother _ (squareIdx_ne hr hc hfr hfc hrf) (squareIdx_ne hr hc htr htc hrt)

theorem make_move_spec_witness :
    (rookBoard.make_move ⟨0, 0, 0, 1⟩).turn = flipColor rookBoard.turn :=
  (make_move_spec rookBoard ⟨0, 0, 0, 1⟩ (by decide) (by decide) (by decide)
    (by decide) (by decide) (by decide)).2.2.2

/-! ### Claim C4: what `from_fen` actually rejects -/

/-- The square count of a rank group as the claim defines it: digits add
their value, piece letters add one. -/
def rankSquareCount (row : List Char) : Nat :=
  row.foldl (fun acc ch => if ch.isDigit then acc + (ch.toNat - 48) else acc + 1) 0

/-- C4 counterexample: `"8/8/8/8/8/8/8/7 w"` has a rank group of square
count 7 ≠ 8, and `"8/8/8/8/8/8/8 w"` has only 7 rank groups — the claim
says decode must fail on both, yet `from_fen` decodes both successfully. -/
theorem from_fen_counterexample :
    (splitOnSlash ("8/8/8/8/8/8/8/7".data)).length = 8 ∧
      ((splitOnSlash ("8/8/8/8/8/8/8/7".data)).map rankSquareCount)
        = [8, 8, 8, 8, 8, 8, 8, 7] ∧
      (Board.from_fen "8/8/8/8/8/8/8/7 w").isSome = true ∧
      (splitOnSlash ("8/8/8/8/8/8/8".data)).length = 7 ∧
      (Board.from_fen "8/8/8/8/8/8/8 w").isSome = true := by
  decide

/-- The failure condition `from_fen` actually implements on one rank group
(tracking the running column `c`): an unrecognized piece character, or a
piece write at array index `r * 8 + c ≥ 64`. -/
def rowFails (r : Nat) : List Char → Nat → Bool
  | [], _ => false
  | ch :: rest, c =>
    if ch.isDigit then rowFails r rest (c + (ch.toNat - 48))
    else
      match pieceTypeOfChar ch with
      | none => true
      | some _ => if r * 8 + c < 64 then rowFails r rest (c + 1) else true

def rowsFail : Nat → List (List Char) → Bool
  | _, [] => false
  | r, row :: rest => rowFails r row 0 || rowsFail (r + 1) rest

/-- What `from_fen` rejects: no token at all, or some rank group failing
per `rowFails` at its rank index. -/
def decodeFails (s : String) : Bool :=
  match splitWs s.data with
  | [] => true
  | p0 :: _ => rowsFail 0 (splitOnSlash p0)

/-- Whether one rank group aborts the decode does not depend on the square
array being written — only on the characters and the running column. -/
lemma placeRow_eq_none_iff (row : List Char) :
    ∀ (r c : Nat) (sq : List (Option Piece)),
      (placeRow r row c sq = none ↔ rowFails r row c = true) := by
  induction row with
  | nil =>
    intro r c sq
    simp [placeRow, rowFails]
  | cons ch rest ih =>
    intro r c sq
    cases hd : ch.isDigit with
    | true =>
      simp only [placeRow, rowFails, hd, if_true]
      exact ih r _ sq
    | false =>
      cases hpt : pieceTypeOfChar ch with
      | none => simp [placeRow, rowFails, hd, hpt]
      | some pt =>
        by_cases hidx : r * 8 + c < 64
        · simp only [placeRow, rowFails, hd, hpt, if_false, if_pos hidx]
          exact ih r _ _
        · simp [placeRow, rowFails, hd, hpt, hidx]

lemma placeRows_eq_none_iff (rows : List (List Char)) :
    ∀ (r : Nat) (sq : List (Option Piece)),
      (placeRows rows r sq = none ↔ rowsFail r rows = true) := by
  induction rows with
  | nil =>
    intro r sq
    simp [placeRows, rowsFail]
  | cons row rest ih =>
    intro r sq
    cases h : placeRow r row 0 sq with
    | none =>
      have hf : rowFails r row 0 = true := (placeRow_eq_none_iff row r 0 sq).mp h
      simp [placeRows, h, rowsFail, hf]
    | some sq' =>
      have hf : rowFails r row 0 = false := by
        cases hx : rowFails r row 0 with
        | false => rfl
        | true =>
          have hcontra := (placeRow_eq_none_iff row r 0 sq).mpr hx
          rw [h] at hcontra
          exact Option.noConfusion hcontra
      simp only [placeRows, h, rowsFail, hf, Bool.false_or]
      exact ih (r + 1) sq'

/-- C4 as amended: `from_fen` fails exactly when the input has no
whitespace-separated token, or a rank group of the placement section
contains an unrecognized piece character, or a piece placement falls
outside the 64-square array; the rank-group count and the per-rank square
counts are not validated, so inputs violating only those decode
successfully (see `from_fen_counterexample`). -/
theorem from_fen_none_iff (s : String) :
    Board.from_fen s = none ↔ decodeFails s = true := by
  unfold Board.from_fen decodeFails
  cases hsw : splitWs s.data with
  | nil => simp
  | cons p0 rest =>
    cases hpr : placeRows (splitOnSlash p0) 0 emptySquares with
    | none =>
      have hrf := (placeRows_eq_none_iff (splitOnSlash p0) 0 emptySquares).mp hpr
      simp [hpr, hrf]
    | some sq =>
      have hf : rowsFail 0 (splitOnSlash p0) = false := by
        cases hx : rowsFail 0 (splitOnSlash p0) with
        | false => rfl
        | true =>
          have hcontra :=
            (placeRows_eq_none_iff (splitOnSlash p0) 0 emptySquares).mpr hx
          rw [hpr] at hcontra
          exact Option.noConfusion hcontra
      simp [hpr, hf]
